import Mathlib

/-!
Formal model of `tarot_rankings.py`: the aggregation core
(`parse_excel_all_sheets`, rows 4..100 of each sheet having been extracted by
the spreadsheet reader, which is an external collaborator) and the top-K
selection / ranking core (`compute_top_k_and_totals`).

Numbers (Python floats) are modelled as rationals; a raw cell is either empty
(`None`) or a value carrying its `str(...)` rendering and its `float(...)`
parse result (`none` when `float` would raise).
-/

namespace TarotRankings

/-- A raw spreadsheet cell value as the aggregator consumes it: `str` models
the Python `str(value)` rendering and `asNum` models `float(value)`, which
either yields a number or raises (modelled as `none`). -/
structure CellVal where
  str : String
  asNum : Option ℚ
deriving Repr, DecidableEq

/-- A cell is either empty (`None` in Python) or holds a value. -/
abbrev Cell := Option CellVal

/-- One raw row of the fixed column window (columns C, D, I, K): last name,
first name, score, points. -/
structure RawRow where
  ln : Cell
  fn : Cell
  sc : Cell
  pt : Cell
deriving Repr, DecidableEq

/-- The aggregation key: (last name, first name), both stripped. -/
abbrev PlayerKey := String × String

/-- The aggregated mapping player_key -> (list of scores, list of points),
in insertion order (Python dicts preserve insertion order). -/
abbrev PlayerData := List (PlayerKey × (List ℚ × List ℚ))

/-- Blank test on a name cell, Python `x is None or str(x).strip() == ""`
(line 56 of `tarot_rankings.py`). -/
def isBlankCell (c : Cell) : Bool :=
  match c with
  | none => true
  | some v => v.str.trim == ""

/-- Python `str(x).strip() if x is not None else ""` (lines 72-73). -/
def strippedName (c : Cell) : String :=
  match c with
  | none => ""
  | some v => v.str.trim

/-- Models lines 56-77 of `parse_excel_all_sheets`: decides whether one raw
row is kept and, if so, with which key, score and points value. `none` means
the row is skipped (`continue`). -/
def parseRow (row : RawRow) : Option (PlayerKey × ℚ × ℚ) :=
  if isBlankCell row.ln && isBlankCell row.fn then none
  else
    match row.sc with
    | none => none
    | some scv =>
      match scv.asNum with
      | none => none
      | some numeric_score =>
        let numeric_points : ℚ :=
          match row.pt with
          | none => 0
          | some ptv =>
            match ptv.asNum with
            | none => 0
            | some q => q
        let last_name := strippedName row.ln
        let first_name := strippedName row.fn
        if last_name == "" && first_name == "" then none
        else some ((last_name, first_name), numeric_score, numeric_points)

/-- Models lines 77-81: append the row's score and points to the entry of
`key`, creating the entry at the end when absent (dict insertion order). -/
def addEntry (m : PlayerData) (key : PlayerKey) (score points : ℚ) : PlayerData :=
  match m with
  | [] => [(key, ([score], [points]))]
  | (k, v) :: rest =>
    if k = key then (k, (v.1 ++ [score], v.2 ++ [points])) :: rest
    else (k, v) :: addEntry rest key score points

/-- Processing of one raw row in the aggregation loop (lines 50-81). -/
def processRow (m : PlayerData) (row : RawRow) : PlayerData :=
  match parseRow row with
  | none => m
  | some (key, score, points) => addEntry m key score points

/-- Models `parse_excel_all_sheets` (lines 27-84): each sheet is given as the
sequence of raw rows of its row window 4..min(100, max_row), already read by
the external spreadsheet collaborator. The final filter is line 84: keep only
players with at least one score. -/
def parse_excel_all_sheets (sheets : List (List RawRow)) : PlayerData :=
  (sheets.foldl (fun m sheet => sheet.foldl processRow m) []).filter
    (fun e => !e.2.1.isEmpty)

/-- A value of an output row: rows mix numbers (rank, play count, points,
scores) and strings (names, blank padding). -/
inductive Field where
  | num (q : ℚ)
  | str (s : String)
deriving Repr, DecidableEq

/-- One entry of `rows_with_meta` (line 109): the tuple
(base_row, play_count, total_score, total_points, ln, fn); `top_points`
additionally records the local variable of line 97, for specification. -/
structure MetaRow where
  base_row : List Field
  play_count : Nat
  total_score : ℚ
  total_points : ℚ
  ln : String
  fn : String
  top_points : List ℚ
deriving Repr, DecidableEq

/-- One step of a lexicographic key comparison, exactly as Python tuple
comparison performs it: a strictly smaller first component decides, a
strictly larger one decides negatively, otherwise the remaining components
decide. -/
def lexStep {α : Type} [LinearOrder α] (x y : α) (rest : Bool) : Bool :=
  if x < y then true else if y < x then false else rest

/-- The comparison used by the sort of line 94, as a boolean total preorder:
Python key `(-x[0], -x[1])` on (points, score) pairs, that is points
descending, then score descending. -/
def contribLE (a b : ℚ × ℚ) : Bool :=
  lexStep b.1 a.1 (lexStep b.2 a.2 true)

/-- Models lines 91-109: the per-player top-k selection, totals and base row.
`v` is the player's (scores, points); `combined` is `zip(points, scores)`. -/
def mkMetaRow (k : Nat) (key : PlayerKey) (v : List ℚ × List ℚ) : MetaRow :=
  let combined := v.2.zip v.1
  let sorted_combined := combined.mergeSort contribLE
  let top_combined := sorted_combined.take k
  let top_points := top_combined.map Prod.fst
  let top_scores := top_combined.map Prod.snd
  let total_score := top_scores.sum
  let total_points := top_points.sum
  let play_count := top_combined.length
  { base_row := [Field.str key.1, Field.str key.2, Field.num (play_count : ℚ)]
      ++ top_points.map Field.num
      ++ List.replicate (k - top_points.length) (Field.str "")
      ++ [Field.num total_score, Field.num total_points]
    play_count := play_count
    total_score := total_score
    total_points := total_points
    ln := key.1
    fn := key.2
    top_points := top_points }

/-- Models lines 112-113: the output headers. -/
def headerFields (k : Nat) : List String :=
  ["Classement", "Nom", "Prénom", "Participations"]
    ++ (List.range k).map (fun i => toString (i + 1))
    ++ ["Totaux"] ++ ["Scores", "Points"]

/-- The comparison of the ranking sort (line 116), as a boolean total
preorder: Python key `(-total_points, -total_score, ln, fn)`, lexicographic. -/
def metaLE (a b : MetaRow) : Bool :=
  lexStep b.total_points a.total_points
    (lexStep b.total_score a.total_score
      (lexStep a.ln b.ln
        (lexStep a.fn b.fn true)))

/-- One final ranked row (line 128): `final_row = [classement] + base_row`,
kept structured as the assigned rank together with the row it prefixes. -/
structure RankedRow where
  rank : Nat
  meta : MetaRow
deriving Repr, DecidableEq

/-- The totals key used for rank ties (line 123). -/
def totKey (m : MetaRow) : ℚ × ℚ := (m.total_points, m.total_score)

/-- Models the rank-assignment loop of lines 119-129: `i` is the enumeration
index, `classement` the rank assigned to the previous row, `last_key` the
previous totals key (`None` before the first row). A row gets a fresh rank
`i + 1` unless its key equals the previous key. -/
def rankLoop (i classement : Nat) (last_key : Option (ℚ × ℚ)) :
    List MetaRow → List RankedRow
  | [] => []
  | m :: rest =>
    let key := totKey m
    let c := if last_key = some key then classement else i + 1
    { rank := c, meta := m } :: rankLoop (i + 1) c (some key) rest

/-- The comparison of the final presentation sort (line 132), as a boolean
total preorder: key `(r[0], r[1], r[2])`, that is (rank, last name, first
name) ascending. -/
def finalLE (a b : RankedRow) : Bool :=
  lexStep a.rank b.rank
    (lexStep a.meta.ln b.meta.ln
      (lexStep a.meta.fn b.meta.fn true))

/-- The `rows_with_meta` list of lines 89-109, one entry per player, in
mapping order. -/
def rowsWithMeta (player_data : PlayerData) (k : Nat) : List MetaRow :=
  player_data.map (fun e => mkMetaRow k e.1 e.2)

/-- `rows_with_meta` after the ranking sort of line 116. -/
def sortedMetas (player_data : PlayerData) (k : Nat) : List MetaRow :=
  (rowsWithMeta player_data k).mergeSort metaLE

/-- `ranked_rows` of lines 119-129, before the final presentation sort. -/
def rankedRowsPre (player_data : PlayerData) (k : Nat) : List RankedRow :=
  rankLoop 0 0 none (sortedMetas player_data k)

/-- Models `compute_top_k_and_totals` (lines 87-134): headers and the final
ranked rows in presentation order. -/
def compute_top_k_and_totals (player_data : PlayerData) (k : Nat) :
    List String × List RankedRow :=
  (headerFields k, (rankedRowsPre player_data k).mergeSort finalLE)

/-- Flattening of a final row into the heterogeneous list the renderers
receive: `final_row = [classement] + base_row` (line 128). -/
def flattenRow (r : RankedRow) : List Field :=
  Field.num (r.rank : ℚ) :: r.meta.base_row

/-- Strict lexicographic order on totals keys (total_points, total_score). -/
def keyLT (p q : ℚ × ℚ) : Prop :=
  p.1 < q.1 ∨ (p.1 = q.1 ∧ p.2 < q.2)

theorem lexStep_of_lt {α : Type} [LinearOrder α] {x y : α} (h : x < y) (r : Bool) :
    lexStep x y r = true := by
  simp [lexStep, h]

theorem lexStep_of_gt {α : Type} [LinearOrder α] {x y : α} (h : y < x) (r : Bool) :
    lexStep x y r = false := by
  simp [lexStep, h, lt_asymm h]

theorem lexStep_self {α : Type} [LinearOrder α] (x : α) (r : Bool) :
    lexStep x x r = r := by
  simp [lexStep, lt_irrefl]

theorem lexStep_total {α : Type} [LinearOrder α] (x y : α) (r s : Bool)
    (h : r || s) : lexStep x y r || lexStep y x s := by
  rcases lt_trichotomy x y with hlt | heq | hgt
  · simp [lexStep_of_lt hlt]
  · subst heq
    simpa [lexStep_self] using h
  · simp [lexStep_of_lt hgt]

theorem lexStep_trans {α : Type} [LinearOrder α] (x y z : α) {r s t : Bool}
    (hrst : r → s → t) (h1 : lexStep x y r) (h2 : lexStep y z s) :
    lexStep x z t := by
  rcases lt_trichotomy x y with hxy | hxy | hxy
  · rcases lt_trichotomy y z with hyz | hyz | hyz
    · exact lexStep_of_lt (lt_trans hxy hyz) t
    · subst hyz
      exact lexStep_of_lt hxy t
    · rw [lexStep_of_gt hyz] at h2
      exact absurd h2 (by simp)
  · subst hxy
    rw [lexStep_self] at h1
    rcases lt_trichotomy x z with hyz | hyz | hyz
    · exact lexStep_of_lt hyz t
    · subst hyz
      rw [lexStep_self] at h2 ⊢
      exact hrst h1 h2
    · rw [lexStep_of_gt hyz] at h2
      exact absurd h2 (by simp)
  · rw [lexStep_of_gt hxy] at h1
    exact absurd h1 (by simp)

theorem contribLE_total (a b : ℚ × ℚ) : contribLE a b || contribLE b a :=
  lexStep_total b.1 a.1 _ _ (lexStep_total b.2 a.2 true true rfl)

theorem contribLE_trans (a b c : ℚ × ℚ) (h1 : contribLE a b) (h2 : contribLE b c) :
    contribLE a c :=
  lexStep_trans c.1 b.1 a.1
    (fun hs hr => lexStep_trans c.2 b.2 a.2 (fun _ _ => rfl) hs hr) h2 h1

theorem metaLE_total (a b : MetaRow) : metaLE a b || metaLE b a :=
  lexStep_total b.total_points a.total_points _ _
    (lexStep_total b.total_score a.total_score _ _
      (lexStep_total a.ln b.ln _ _
        (lexStep_total a.fn b.fn true true rfl)))

theorem metaLE_trans (a b c : MetaRow) (h1 : metaLE a b) (h2 : metaLE b c) :
    metaLE a c :=
  lexStep_trans c.total_points b.total_points a.total_points
    (fun hs hr =>
      lexStep_trans c.total_score b.total_score a.total_score
        (fun hs2 hr2 =>
          lexStep_trans a.ln b.ln c.ln
            (fun hr3 hs3 =>
              lexStep_trans a.fn b.fn c.fn (fun _ _ => rfl) hr3 hs3)
            hr2 hs2)
        hs hr)
    h2 h1

theorem finalLE_total (a b : RankedRow) : finalLE a b || finalLE b a :=
  lexStep_total a.rank b.rank _ _
    (lexStep_total a.meta.ln b.meta.ln _ _
      (lexStep_total a.meta.fn b.meta.fn true true rfl))

theorem finalLE_trans (a b c : RankedRow) (h1 : finalLE a b) (h2 : finalLE b c) :
    finalLE a c :=
  lexStep_trans a.rank b.rank c.rank
    (fun hr hs =>
      lexStep_trans a.meta.ln b.meta.ln c.meta.ln
        (fun hr2 hs2 =>
          lexStep_trans a.meta.fn b.meta.fn c.meta.fn (fun _ _ => rfl) hr2 hs2)
        hr hs)
    h1 h2

theorem mergeSort_pair_of_le {α : Type} {le : α → α → Bool} (a b : α) (h : le a b) :
    [a, b].mergeSort le = [a, b] :=
  List.mergeSort_of_sorted (by simp [List.pairwise_cons, h])

theorem keyLT_asymm {p q : ℚ × ℚ} (h : keyLT p q) : ¬ keyLT q p := by
  unfold keyLT at *
  rcases h with h | ⟨h1, h2⟩ <;> rintro (h3 | ⟨h4, h5⟩) <;> linarith

theorem totKey_eq_or_gt_of_metaLE {a b : MetaRow} (h : metaLE a b) :
    totKey a = totKey b ∨ keyLT (totKey b) (totKey a) := by
  unfold metaLE at h
  rcases lt_trichotomy b.total_points a.total_points with h1 | h1 | h1
  · exact Or.inr (Or.inl h1)
  · rw [h1, lexStep_self] at h
    rcases lt_trichotomy b.total_score a.total_score with h2 | h2 | h2
    · exact Or.inr (Or.inr ⟨h1, h2⟩)
    · left
      unfold totKey
      rw [h1, h2]
    · rw [lexStep_of_gt h2] at h
      exact absurd h (by simp)
  · rw [lexStep_of_gt h1] at h
    exact absurd h (by simp)

theorem rank_le_of_finalLE {a b : RankedRow} (h : finalLE a b) : a.rank ≤ b.rank := by
  unfold finalLE at h
  rcases lt_trichotomy a.rank b.rank with h1 | h1 | h1
  · exact Nat.le_of_lt h1
  · exact Nat.le_of_eq h1
  · rw [lexStep_of_gt h1] at h
    exact absurd h (by simp)

theorem rankLoop_cons (i c : Nat) (lk : Option (ℚ × ℚ)) (m : MetaRow)
    (rest : List MetaRow) :
    rankLoop i c lk (m :: rest) =
      { rank := if lk = some (totKey m) then c else i + 1, meta := m } ::
        rankLoop (i + 1) (if lk = some (totKey m) then c else i + 1)
          (some (totKey m)) rest := rfl

theorem rankLoop_length (i c : Nat) (lk : Option (ℚ × ℚ)) (ms : List MetaRow) :
    (rankLoop i c lk ms).length = ms.length := by
  induction ms generalizing i c lk with
  | nil => rfl
  | cons m rest ih => simp [rankLoop_cons, ih]

theorem rankLoop_meta_mem (i c : Nat) (lk : Option (ℚ × ℚ)) (ms : List MetaRow) :
    ∀ r ∈ rankLoop i c lk ms, r.meta ∈ ms := by
  induction ms generalizing i c lk with
  | nil =>
    intro r hr
    simp [rankLoop] at hr
  | cons m rest ih =>
    intro r hr
    rw [rankLoop_cons] at hr
    rcases List.mem_cons.mp hr with h | h
    · subst h
      exact List.mem_cons_self _ _
    · exact List.mem_cons_of_mem _ (ih _ _ _ r h)

theorem rankLoop_exists_meta (i c : Nat) (lk : Option (ℚ × ℚ)) (ms : List MetaRow) :
    ∀ m ∈ ms, ∃ r ∈ rankLoop i c lk ms, r.meta = m := by
  induction ms generalizing i c lk with
  | nil =>
    intro m hm
    simp at hm
  | cons m0 rest ih =>
    intro m hm
    rcases List.mem_cons.mp hm with h | h
    · subst h
      exact ⟨_, by rw [rankLoop_cons]; exact List.mem_cons_self _ _, rfl⟩
    · obtain ⟨r, hr, hrm⟩ := ih (i + 1) _ _ m h
      exact ⟨r, by rw [rankLoop_cons]; exact List.mem_cons_of_mem _ hr, hrm⟩

theorem rankLoop_rank_zero_none (ms : List MetaRow) (h : 0 < ms.length)
    (hr : 0 < (rankLoop 0 0 none ms).length) :
    ((rankLoop 0 0 none ms).get ⟨0, hr⟩).rank = 1 := by
  cases ms with
  | nil => simp at h
  | cons m rest => simp [rankLoop_cons]

theorem rankLoop_rank_succ (ms : List MetaRow) (i c : Nat) (lk : Option (ℚ × ℚ))
    (j : Nat) (hj : j + 1 < ms.length) (hj0 : j < ms.length)
    (hr : j + 1 < (rankLoop i c lk ms).length)
    (hr0 : j < (rankLoop i c lk ms).length) :
    ((rankLoop i c lk ms).get ⟨j + 1, hr⟩).rank =
      if totKey (ms.get ⟨j + 1, hj⟩) = totKey (ms.get ⟨j, hj0⟩)
      then ((rankLoop i c lk ms).get ⟨j, hr0⟩).rank
      else i + (j + 2) := by
  induction ms generalizing i c lk j with
  | nil => simp at hj
  | cons m rest ih =>
    cases j with
    | zero =>
      cases rest with
      | nil => simp at hj
      | cons m1 rest2 =>
        simp only [rankLoop_cons, List.get_eq_getElem, List.getElem_cons_succ,
          List.getElem_cons_zero]
        by_cases hkey : totKey m1 = totKey m
        · simp [hkey]
        · simp [hkey, Ne.symm hkey]
    | succ jj =>
      have hj' : jj + 1 < rest.length := by
        simp at hj
        omega
      have hj0' : jj < rest.length := by omega
      have hr' : jj + 1 <
          (rankLoop (i + 1) (if lk = some (totKey m) then c else i + 1)
            (some (totKey m)) rest).length := by
        rw [rankLoop_length]
        exact hj'
      have hr0' : jj <
          (rankLoop (i + 1) (if lk = some (totKey m) then c else i + 1)
            (some (totKey m)) rest).length := by
        rw [rankLoop_length]
        exact hj0'
      have harith : (i + 1) + (jj + 2) = i + (jj + 1 + 2) := by omega
      have := ih (i + 1) (if lk = some (totKey m) then c else i + 1)
        (some (totKey m)) jj hj' hj0' hr' hr0'
      simp only [List.get_eq_getElem] at this
      simp only [rankLoop_cons, List.get_eq_getElem, List.getElem_cons_succ]
      rw [this, harith]

theorem rankLoop_rank_findIdx (ms : List MetaRow) (j c : Nat) (K : ℚ × ℚ)
    (hgrp : ms.Pairwise (fun a b => totKey a = totKey b ∨ keyLT (totKey b) (totKey a)))
    (hbelow : ∀ m ∈ ms, totKey m = K ∨ keyLT (totKey m) K) :
    ∀ r ∈ rankLoop j c (some K) ms,
      (totKey r.meta = K ∧ r.rank = c) ∨
      (totKey r.meta ≠ K ∧
        r.rank = j + 1 + ms.findIdx (fun x => decide (totKey x = totKey r.meta))) := by
  induction ms generalizing j c K with
  | nil =>
    intro r hr
    simp [rankLoop] at hr
  | cons m rest ih =>
    intro r hr
    rw [rankLoop_cons] at hr
    rcases List.pairwise_cons.mp hgrp with ⟨hgrp_head, hgrp_tail⟩
    rcases List.mem_cons.mp hr with hhead | htail
    · subst hhead
      by_cases hK : totKey m = K
      · exact Or.inl ⟨hK, by simp [hK]⟩
      · refine Or.inr ⟨hK, ?_⟩
        simp [List.findIdx_cons, hK, Ne.symm hK]
    · by_cases hK : totKey m = K
      · rw [hK, if_pos rfl] at htail
        have hbelow2 : ∀ x ∈ rest, totKey x = K ∨ keyLT (totKey x) K :=
          fun x hx => hbelow x (List.mem_cons_of_mem m hx)
        rcases ih (j + 1) c K hgrp_tail hbelow2 r htail with ⟨ha, hrank⟩ | ⟨hne, hrank⟩
        · exact Or.inl ⟨ha, hrank⟩
        · refine Or.inr ⟨hne, ?_⟩
          have hmne : totKey m ≠ totKey r.meta := by
            rw [hK]
            exact fun hcon => hne hcon.symm
          rw [List.findIdx_cons]
          simp [hmne]
          omega
      · rw [if_neg (by simp [Ne.symm hK])] at htail
        have hbelow2 : ∀ x ∈ rest, totKey x = totKey m ∨ keyLT (totKey x) (totKey m) :=
          fun x hx => (hgrp_head x hx).elim (fun h => Or.inl h.symm) Or.inr
        have hmK : keyLT (totKey m) K :=
          (hbelow m (List.mem_cons_self m rest)).resolve_left hK
        rcases ih (j + 1) (j + 1) (totKey m) hgrp_tail hbelow2 r htail with
          ⟨ha, hrank⟩ | ⟨hne, hrank⟩
        · refine Or.inr ⟨fun hcon => hK (by rw [← ha, hcon]), ?_⟩
          rw [List.findIdx_cons]
          simp [ha]
          omega
        · have hmem : r.meta ∈ rest := rankLoop_meta_mem _ _ _ _ r htail
          have hlt : keyLT (totKey r.meta) (totKey m) :=
            (hgrp_head r.meta hmem).resolve_left (fun h => hne h.symm)
          refine Or.inr ⟨fun hcon => keyLT_asymm hmK (hcon ▸ hlt), ?_⟩
          have hmne : totKey m ≠ totKey r.meta := fun h => hne h.symm
          rw [List.findIdx_cons]
          simp [hmne]
          omega

theorem rankLoop_rank_findIdx_top (ms : List MetaRow)
    (hgrp : ms.Pairwise (fun a b => totKey a = totKey b ∨ keyLT (totKey b) (totKey a))) :
    ∀ r ∈ rankLoop 0 0 none ms,
      r.rank = ms.findIdx (fun x => decide (totKey x = totKey r.meta)) + 1 := by
  cases ms with
  | nil =>
    intro r hr
    simp [rankLoop] at hr
  | cons m rest =>
    intro r hr
    rw [rankLoop_cons, if_neg (by simp)] at hr
    rcases List.pairwise_cons.mp hgrp with ⟨hgrp_head, hgrp_tail⟩
    rcases List.mem_cons.mp hr with hhead | htail
    · subst hhead
      simp [List.findIdx_cons]
    · have hbelow : ∀ x ∈ rest, totKey x = totKey m ∨ keyLT (totKey x) (totKey m) :=
        fun x hx => (hgrp_head x hx).elim (fun h => Or.inl h.symm) Or.inr
      rcases rankLoop_rank_findIdx rest 1 1 (totKey m) hgrp_tail hbelow r htail with
        ⟨ha, hrank⟩ | ⟨hne, hrank⟩
      · rw [List.findIdx_cons]
        simp [ha]
        omega
      · have hmne : totKey m ≠ totKey r.meta := fun h => hne h.symm
        rw [List.findIdx_cons]
        simp [hmne]
        omega

theorem sortedMetas_length (pd : PlayerData) (k : Nat) :
    (sortedMetas pd k).length = pd.length := by
  simp [sortedMetas, rowsWithMeta]

theorem rankedRowsPre_length (pd : PlayerData) (k : Nat) :
    (rankedRowsPre pd k).length = pd.length := by
  rw [rankedRowsPre, rankLoop_length, sortedMetas_length]

theorem totKey_get_congr (xs : List MetaRow) (i1 i2 : Nat) (h1 : i1 < xs.length)
    (h2 : i2 < xs.length) (he : i1 = i2) :
    totKey (xs.get ⟨i1, h1⟩) = totKey (xs.get ⟨i2, h2⟩) := by
  subst he
  rfl

/-- C2: in the totals-sorted sequence, a player's assigned rank equals their
1-based position (j + 1 at 0-based index j) whenever their
(total_points, total_score) pair differs from the previous player's, and
equals the previous player's rank otherwise; the first player gets rank 1
(dense competition ranking, e.g. ranks 1,1,1,4 when the first three of four
players tie). -/
theorem claim_C2_dense_competition_rank (pd : PlayerData) (k j : Nat)
    (hj : j < (sortedMetas pd k).length)
    (hj0 : j - 1 < (sortedMetas pd k).length)
    (hr : j < (rankedRowsPre pd k).length)
    (hr0 : j - 1 < (rankedRowsPre pd k).length) :
    ((rankedRowsPre pd k).get ⟨j, hr⟩).rank =
      if j = 0 then 1
      else if totKey ((sortedMetas pd k).get ⟨j, hj⟩)
              = totKey ((sortedMetas pd k).get ⟨j - 1, hj0⟩)
        then ((rankedRowsPre pd k).get ⟨j - 1, hr0⟩).rank
        else j + 1 := by
  cases j with
  | zero =>
    rw [if_pos rfl]
    exact rankLoop_rank_zero_none _ hj hr
  | succ jj =>
    rw [if_neg (Nat.succ_ne_zero jj)]
    have h := rankLoop_rank_succ (sortedMetas pd k) 0 0 none jj hj
      (by omega) hr (by rw [rankLoop_length]; omega)
    simp only [Nat.zero_add] at h
    exact h

/-- Witness for C2: two players with distinct totals, position j = 1 gets
rank 2 by the recurrence. -/
theorem claim_C2_dense_competition_rank_witness :
    1 < (sortedMetas [(("A", "A"), ([10], [5])), (("B", "B"), ([1], [1]))] 1).length ∧
    1 - 1 < (sortedMetas [(("A", "A"), ([10], [5])), (("B", "B"), ([1], [1]))] 1).length ∧
    1 < (rankedRowsPre [(("A", "A"), ([10], [5])), (("B", "B"), ([1], [1]))] 1).length ∧
    1 - 1 < (rankedRowsPre [(("A", "A"), ([10], [5])), (("B", "B"), ([1], [1]))] 1).length ∧
    ((rankedRowsPre [(("A", "A"), ([10], [5])), (("B", "B"), ([1], [1]))] 1).get
        ⟨1, by rw [rankedRowsPre_length]; decide⟩).rank =
      if (1 : Nat) = 0 then 1
      else if totKey ((sortedMetas [(("A", "A"), ([10], [5])), (("B", "B"), ([1], [1]))] 1).get
              ⟨1, by rw [sortedMetas_length]; decide⟩)
              = totKey ((sortedMetas [(("A", "A"), ([10], [5])), (("B", "B"), ([1], [1]))] 1).get
              ⟨1 - 1, by rw [sortedMetas_length]; decide⟩)
        then ((rankedRowsPre [(("A", "A"), ([10], [5])), (("B", "B"), ([1], [1]))] 1).get
              ⟨1 - 1, by rw [rankedRowsPre_length]; decide⟩).rank
        else 1 + 1 :=
  ⟨by rw [sortedMetas_length]; decide, by rw [sortedMetas_length]; decide,
    by rw [rankedRowsPre_length]; decide, by rw [rankedRowsPre_length]; decide,
    claim_C2_dense_competition_rank
      [(("A", "A"), ([10], [5])), (("B", "B"), ([1], [1]))] 1 1
      (by rw [sortedMetas_length]; decide) (by rw [sortedMetas_length]; decide)
      (by rw [rankedRowsPre_length]; decide) (by rw [rankedRowsPre_length]; decide)⟩

/-- C6: in the final presentation order of the ranker output, rank values are
non-decreasing, and two rows carry the same rank iff their
(total_points, total_score) pairs are equal. -/
theorem claim_C6_rank_monotone_and_ties (pd : PlayerData) (k : Nat) (_hk : 0 < k) :
    ((compute_top_k_and_totals pd k).2).Pairwise (fun a b => a.rank ≤ b.rank) ∧
    ∀ r ∈ (compute_top_k_and_totals pd k).2, ∀ s ∈ (compute_top_k_and_totals pd k).2,
      (r.rank = s.rank ↔ totKey r.meta = totKey s.meta) := by
  constructor
  · have hp : ((rankedRowsPre pd k).mergeSort finalLE).Pairwise
        (fun a b => finalLE a b) :=
      List.sorted_mergeSort finalLE_trans finalLE_total (rankedRowsPre pd k)
    exact hp.imp rank_le_of_finalLE
  · have hgrp : (sortedMetas pd k).Pairwise
        (fun a b => totKey a = totKey b ∨ keyLT (totKey b) (totKey a)) :=
      (List.sorted_mergeSort metaLE_trans metaLE_total (rowsWithMeta pd k)).imp
        totKey_eq_or_gt_of_metaLE
    intro r hr s hs
    have hr2 : r ∈ rankLoop 0 0 none (sortedMetas pd k) := List.mem_mergeSort.mp hr
    have hs2 : s ∈ rankLoop 0 0 none (sortedMetas pd k) := List.mem_mergeSort.mp hs
    have hrrank := rankLoop_rank_findIdx_top _ hgrp r hr2
    have hsrank := rankLoop_rank_findIdx_top _ hgrp s hs2
    constructor
    · intro heq
      have hidx : (sortedMetas pd k).findIdx (fun x => decide (totKey x = totKey r.meta))
          = (sortedMetas pd k).findIdx (fun x => decide (totKey x = totKey s.meta)) := by
        omega
      have hmr : r.meta ∈ sortedMetas pd k := rankLoop_meta_mem _ _ _ _ r hr2
      have hms : s.meta ∈ sortedMetas pd k := rankLoop_meta_mem _ _ _ _ s hs2
      have hlr : (sortedMetas pd k).findIdx (fun x => decide (totKey x = totKey r.meta))
          < (sortedMetas pd k).length :=
        List.findIdx_lt_length_of_exists ⟨r.meta, hmr, by simp⟩
      have hls : (sortedMetas pd k).findIdx (fun x => decide (totKey x = totKey s.meta))
          < (sortedMetas pd k).length :=
        List.findIdx_lt_length_of_exists ⟨s.meta, hms, by simp⟩
      have e1 : totKey ((sortedMetas pd k).get
          ⟨(sortedMetas pd k).findIdx (fun x => decide (totKey x = totKey r.meta)), hlr⟩)
          = totKey r.meta :=
        of_decide_eq_true (@List.findIdx_getElem _ _ _ hlr)
      have e2 : totKey ((sortedMetas pd k).get
          ⟨(sortedMetas pd k).findIdx (fun x => decide (totKey x = totKey s.meta)), hls⟩)
          = totKey s.meta :=
        of_decide_eq_true (@List.findIdx_getElem _ _ _ hls)
      rw [← e1, ← e2]
      exact totKey_get_congr _ _ _ hlr hls hidx
    · intro heq
      have hpred : (fun x => decide (totKey x = totKey r.meta))
          = (fun x => decide (totKey x = totKey s.meta)) := by rw [heq]
      rw [hrrank, hsrank, hpred]

/-- Witness for C6 at a concrete two-player input with k = 1. -/
theorem claim_C6_rank_monotone_and_ties_witness :
    (0 : Nat) < 1 ∧
    (((compute_top_k_and_totals [(("A", "A"), ([10], [5])), (("B", "B"), ([1], [1]))] 1).2).Pairwise
        (fun a b => a.rank ≤ b.rank) ∧
      ∀ r ∈ (compute_top_k_and_totals [(("A", "A"), ([10], [5])), (("B", "B"), ([1], [1]))] 1).2,
        ∀ s ∈ (compute_top_k_and_totals [(("A", "A"), ([10], [5])), (("B", "B"), ([1], [1]))] 1).2,
          (r.rank = s.rank ↔ totKey r.meta = totKey s.meta)) :=
  ⟨by decide,
    claim_C6_rank_monotone_and_ties
      [(("A", "A"), ([10], [5])), (("B", "B"), ([1], [1]))] 1 (by decide)⟩

theorem compute_rows_length (pd : PlayerData) (k : Nat) :
    ((compute_top_k_and_totals pd k).2).length = pd.length := by
  simp [compute_top_k_and_totals, rankedRowsPre_length]

theorem headerFields_length (k : Nat) : (headerFields k).length = k + 7 := by
  simp [headerFields]

theorem mem_compute_meta (pd : PlayerData) (k : Nat) :
    ∀ r ∈ (compute_top_k_and_totals pd k).2, ∃ e ∈ pd, mkMetaRow k e.1 e.2 = r.meta := by
  intro r hr
  have hr2 : r ∈ rankLoop 0 0 none (sortedMetas pd k) := List.mem_mergeSort.mp hr
  have hm : r.meta ∈ rowsWithMeta pd k :=
    List.mem_mergeSort.mp (rankLoop_meta_mem _ _ _ _ r hr2)
  exact List.mem_map.mp hm

theorem mkMetaRow_top_points_length (k : Nat) (key : PlayerKey) (v : List ℚ × List ℚ) :
    (mkMetaRow k key v).top_points.length = min k (v.2.zip v.1).length := by
  simp [mkMetaRow]

theorem mkMetaRow_base_row_length (k : Nat) (key : PlayerKey) (v : List ℚ × List ℚ) :
    (mkMetaRow k key v).base_row.length = k + 5 := by
  have h : min k (v.2.zip v.1).length ≤ k := Nat.min_le_left _ _
  simp [mkMetaRow]
  omega

theorem flattenRow_length_of_mem (pd : PlayerData) (k : Nat) :
    ∀ r ∈ (compute_top_k_and_totals pd k).2, (flattenRow r).length = k + 6 := by
  intro r hr
  obtain ⟨e, _, hme⟩ := mem_compute_meta pd k r hr
  have hb : r.meta.base_row.length = k + 5 := by
    rw [← hme, mkMetaRow_base_row_length]
  simp [flattenRow, hb]

/-- C3: for every player and positive K, the per-player row computed by the
ranker has play_count = min(K, number of contributions); its total_points and
total_score are the sums over a set of play_count contributions each of which
dominates, in the order points-descending then score-descending, every
contribution left out; and every entry of the mapping yields an output row
carrying exactly these values. -/
theorem claim_C3_top_k_selection (k : Nat) (key : PlayerKey)
    (scores points : List ℚ) (_hk : 0 < k)
    (hlen : scores.length = points.length) :
    (mkMetaRow k key (scores, points)).play_count = min k scores.length ∧
    (∃ kept rest,
      List.Perm (kept ++ rest) (points.zip scores) ∧
      kept.length = (mkMetaRow k key (scores, points)).play_count ∧
      (∀ a ∈ kept, ∀ b ∈ rest, contribLE a b) ∧
      (mkMetaRow k key (scores, points)).total_points = (kept.map Prod.fst).sum ∧
      (mkMetaRow k key (scores, points)).total_score = (kept.map Prod.snd).sum) ∧
    ∀ pd : PlayerData, (key, (scores, points)) ∈ pd →
      ∃ r ∈ (compute_top_k_and_totals pd k).2,
        r.meta = mkMetaRow k key (scores, points) := by
  refine ⟨?_, ?_, ?_⟩
  · simp [mkMetaRow, hlen]
  · refine ⟨(List.mergeSort (points.zip scores) contribLE).take k,
      (List.mergeSort (points.zip scores) contribLE).drop k, ?_, ?_, ?_, ?_, ?_⟩
    · rw [List.take_append_drop]
      exact List.mergeSort_perm _ _
    · simp [mkMetaRow]
    · have hs : (List.mergeSort (points.zip scores) contribLE).Pairwise
          (fun a b => contribLE a b) :=
        List.sorted_mergeSort contribLE_trans contribLE_total _
      rw [← List.take_append_drop k (List.mergeSort (points.zip scores) contribLE)] at hs
      exact (List.pairwise_append.mp hs).2.2
    · simp [mkMetaRow]
    · simp [mkMetaRow]
  · intro pd hmem
    have h1 : mkMetaRow k key (scores, points) ∈ rowsWithMeta pd k := by
      have := List.mem_map_of_mem (fun e => mkMetaRow k e.1 e.2) hmem
      simpa [rowsWithMeta] using this
    have h2 : mkMetaRow k key (scores, points) ∈ sortedMetas pd k :=
      List.mem_mergeSort.mpr h1
    obtain ⟨r, hr, hrm⟩ := rankLoop_exists_meta 0 0 none _ _ h2
    exact ⟨r, List.mem_mergeSort.mpr hr, hrm⟩

/-- Witness for C3 at one player with a single contribution and k = 1. -/
theorem claim_C3_top_k_selection_witness :
    (0 : Nat) < 1 ∧ ([(50 : ℚ)]).length = ([(10 : ℚ)]).length ∧
    ((mkMetaRow 1 ("A", "B") ([50], [10])).play_count = min 1 ([(50 : ℚ)]).length ∧
      (∃ kept rest,
        List.Perm (kept ++ rest) (([(10 : ℚ)]).zip [(50 : ℚ)]) ∧
        kept.length = (mkMetaRow 1 ("A", "B") ([50], [10])).play_count ∧
        (∀ a ∈ kept, ∀ b ∈ rest, contribLE a b) ∧
        (mkMetaRow 1 ("A", "B") ([50], [10])).total_points = (kept.map Prod.fst).sum ∧
        (mkMetaRow 1 ("A", "B") ([50], [10])).total_score = (kept.map Prod.snd).sum) ∧
      ∀ pd : PlayerData, (("A", "B"), ([(50 : ℚ)], [(10 : ℚ)])) ∈ pd →
        ∃ r ∈ (compute_top_k_and_totals pd 1).2,
          r.meta = mkMetaRow 1 ("A", "B") ([50], [10])) :=
  ⟨by decide, by decide,
    claim_C3_top_k_selection 1 ("A", "B") [50] [10] (by decide) (by decide)⟩

/-- C1 (amended): every flattened ranker row has exactly len(headers) - 1
fields — the headers list carries one extra entry (the group label "Totaux")
with no corresponding row field — and the row fields appear in the fixed
order: rank, surname, given name, play-count, K points-slots (blank-padded),
total score, total points. -/
theorem claim_C1_row_shape (pd : PlayerData) (k : Nat) (_hk : 0 < k) :
    ∀ r ∈ (compute_top_k_and_totals pd k).2,
      (flattenRow r).length + 1 = (compute_top_k_and_totals pd k).1.length ∧
      ∃ slots : List Field, slots.length = k ∧
        slots = r.meta.top_points.map Field.num
          ++ List.replicate (k - r.meta.top_points.length) (Field.str "") ∧
        flattenRow r = [Field.num (r.rank : ℚ), Field.str r.meta.ln,
            Field.str r.meta.fn, Field.num (r.meta.play_count : ℚ)]
          ++ slots ++ [Field.num r.meta.total_score, Field.num r.meta.total_points] := by
  intro r hr
  obtain ⟨e, _, hme⟩ := mem_compute_meta pd k r hr
  have htp : r.meta.top_points.length ≤ k := by
    rw [← hme, mkMetaRow_top_points_length]
    exact Nat.min_le_left _ _
  refine ⟨?_, r.meta.top_points.map Field.num
      ++ List.replicate (k - r.meta.top_points.length) (Field.str ""), ?_, rfl, ?_⟩
  · rw [flattenRow_length_of_mem pd k r hr]
    have hh : (compute_top_k_and_totals pd k).1 = headerFields k := rfl
    rw [hh, headerFields_length]
  · rw [List.length_append, List.length_map, List.length_replicate]
    omega
  · rw [flattenRow, ← hme]
    simp [mkMetaRow]

/-- Counterexample to C1 as stated: with one player and K = 1, the flattened
row has 7 fields while the headers list has 8 entries. -/
theorem claim_C1_counterexample :
    ¬ ∀ r ∈ (compute_top_k_and_totals [(("A", "B"), ([1], [2]))] 1).2,
        (flattenRow r).length
          = (compute_top_k_and_totals [(("A", "B"), ([1], [2]))] 1).1.length := by
  intro hall
  obtain ⟨r, hrmem⟩ :
      ∃ r, r ∈ (compute_top_k_and_totals [(("A", "B"), ([1], [2]))] 1).2 := by
    have hlen := compute_rows_length [(("A", "B"), ([1], [2]))] 1
    cases hcase : (compute_top_k_and_totals [(("A", "B"), ([1], [2]))] 1).2 with
    | nil =>
      rw [hcase] at hlen
      simp at hlen
    | cons a l =>
      exact ⟨a, List.mem_cons_self _ _⟩
  have h1 := flattenRow_length_of_mem _ _ r hrmem
  have h2 := hall r hrmem
  have h3 : (compute_top_k_and_totals [(("A", "B"), ([1], [2]))] 1).1
      = headerFields 1 := rfl
  rw [h1, h3, headerFields_length] at h2
  omega

/-- Witness for the amended C1 at one player with a single contribution. -/
theorem claim_C1_row_shape_witness :
    (0 : Nat) < 1 ∧
    ∀ r ∈ (compute_top_k_and_totals [(("C", "D"), ([3], [4]))] 1).2,
      (flattenRow r).length + 1
          = (compute_top_k_and_totals [(("C", "D"), ([3], [4]))] 1).1.length ∧
      ∃ slots : List Field, slots.length = 1 ∧
        slots = r.meta.top_points.map Field.num
          ++ List.replicate (1 - r.meta.top_points.length) (Field.str "") ∧
        flattenRow r = [Field.num (r.rank : ℚ), Field.str r.meta.ln,
            Field.str r.meta.fn, Field.num (r.meta.play_count : ℚ)]
          ++ slots ++ [Field.num r.meta.total_score, Field.num r.meta.total_points] :=
  ⟨by decide, claim_C1_row_shape [(("C", "D"), ([3], [4]))] 1 (by decide)⟩

theorem name_le_of_finalLE_eq_rank {a b : RankedRow} (h : finalLE a b)
    (hr : a.rank = b.rank) :
    a.meta.ln < b.meta.ln ∨ (a.meta.ln = b.meta.ln ∧ a.meta.fn ≤ b.meta.fn) := by
  unfold finalLE at h
  rw [hr, lexStep_self] at h
  rcases lt_trichotomy a.meta.ln b.meta.ln with h1 | h1 | h1
  · exact Or.inl h1
  · rw [h1, lexStep_self] at h
    rcases lt_trichotomy a.meta.fn b.meta.fn with h2 | h2 | h2
    · exact Or.inr ⟨h1, le_of_lt h2⟩
    · exact Or.inr ⟨h1, le_of_eq h2⟩
    · rw [lexStep_of_gt h2] at h
      exact absurd h (by simp)
  · rw [lexStep_of_gt h1] at h
    exact absurd h (by simp)

theorem totKey_of_k_zero (pd : PlayerData) :
    ∀ m ∈ sortedMetas pd 0, totKey m = (0, 0) := by
  intro m hm
  obtain ⟨e, _, hme⟩ := List.mem_map.mp (List.mem_mergeSort.mp hm)
  rw [← hme]
  simp [mkMetaRow, totKey]

/-- C10: the ranker accepts k = 0 and returns one row per player of the input
mapping, each with play count 0, no points slots, zero total score, zero
total points, and rank 1; headers have no slot columns; the rows come ordered
by surname then given name. -/
theorem claim_C10_k_zero (pd : PlayerData) :
    (compute_top_k_and_totals pd 0).1
        = ["Classement", "Nom", "Prénom", "Participations", "Totaux", "Scores", "Points"] ∧
    ((compute_top_k_and_totals pd 0).2).length = pd.length ∧
    (∀ r ∈ (compute_top_k_and_totals pd 0).2,
      r.rank = 1 ∧ r.meta.play_count = 0 ∧ r.meta.top_points = [] ∧
      r.meta.total_score = 0 ∧ r.meta.total_points = 0) ∧
    ((compute_top_k_and_totals pd 0).2).Pairwise
      (fun a b => a.meta.ln < b.meta.ln ∨ (a.meta.ln = b.meta.ln ∧ a.meta.fn ≤ b.meta.fn)) := by
  have hgrp : (sortedMetas pd 0).Pairwise
      (fun a b => totKey a = totKey b ∨ keyLT (totKey b) (totKey a)) :=
    (List.sorted_mergeSort metaLE_trans metaLE_total (rowsWithMeta pd 0)).imp
      totKey_eq_or_gt_of_metaLE
  have hone : ∀ r ∈ (compute_top_k_and_totals pd 0).2, r.rank = 1 := by
    intro r hr
    have hr2 : r ∈ rankLoop 0 0 none (sortedMetas pd 0) := List.mem_mergeSort.mp hr
    have hrank := rankLoop_rank_findIdx_top _ hgrp r hr2
    have hmr : r.meta ∈ sortedMetas pd 0 := rankLoop_meta_mem _ _ _ _ r hr2
    cases hms : sortedMetas pd 0 with
    | nil =>
      rw [hms] at hmr
      simp at hmr
    | cons m0 rest =>
      rw [hms] at hrank
      rw [List.findIdx_cons] at hrank
      have h0 : totKey m0 = totKey r.meta := by
        rw [totKey_of_k_zero pd m0 (by rw [hms]; exact List.mem_cons_self _ _),
          totKey_of_k_zero pd r.meta hmr]
      rw [hrank]
      simp [h0]
  refine ⟨?_, ?_, ?_, ?_⟩
  · rfl
  · exact compute_rows_length pd 0
  · intro r hr
    obtain ⟨e, _, hme⟩ := mem_compute_meta pd 0 r hr
    refine ⟨hone r hr, ?_, ?_, ?_, ?_⟩ <;> rw [← hme] <;> simp [mkMetaRow]
  · have hp : ((rankedRowsPre pd 0).mergeSort finalLE).Pairwise
        (fun a b => finalLE a b) :=
      List.sorted_mergeSort finalLE_trans finalLE_total (rankedRowsPre pd 0)
    exact hp.imp_of_mem (fun ha hb hab =>
      name_le_of_finalLE_eq_rank hab (by rw [hone _ ha, hone _ hb]))

theorem isBlankCell_eq (c : Cell) : isBlankCell c = (strippedName c == "") := by
  cases c <;> rfl

/-- C4: an input row whose score cell is missing or cannot be parsed as a
number is dropped entirely: parsing skips it and processing it leaves the
aggregation unchanged, whatever the name and points cells hold; no error is
raised (processing is total). -/
theorem claim_C4_unparsable_score_dropped (row : RawRow) (m : PlayerData)
    (h : row.sc = none ∨ ∃ v, row.sc = some v ∧ v.asNum = none) :
    parseRow row = none ∧ processRow m row = m := by
  have hp : parseRow row = none := by
    unfold parseRow
    rcases h with h | ⟨v, hv, hn⟩
    · simp [h]
    · simp [hv, hn]
  exact ⟨hp, by simp [processRow, hp]⟩

/-- Witness for C4: a row with valid names and points but score "abc". -/
theorem claim_C4_unparsable_score_dropped_witness :
    ((RawRow.mk (some ⟨"Doe", none⟩) (some ⟨"Jo", none⟩)
        (some ⟨"abc", none⟩) (some ⟨"3", some 3⟩)).sc = none ∨
      ∃ v, (RawRow.mk (some ⟨"Doe", none⟩) (some ⟨"Jo", none⟩)
        (some ⟨"abc", none⟩) (some ⟨"3", some 3⟩)).sc = some v ∧ v.asNum = none) ∧
    parseRow (RawRow.mk (some ⟨"Doe", none⟩) (some ⟨"Jo", none⟩)
        (some ⟨"abc", none⟩) (some ⟨"3", some 3⟩)) = none ∧
    processRow [] (RawRow.mk (some ⟨"Doe", none⟩) (some ⟨"Jo", none⟩)
        (some ⟨"abc", none⟩) (some ⟨"3", some 3⟩)) = [] :=
  ⟨Or.inr ⟨⟨"abc", none⟩, rfl, rfl⟩,
    claim_C4_unparsable_score_dropped _ []
      (Or.inr ⟨⟨"abc", none⟩, rfl, rfl⟩)⟩

/-- C5: a row with a non-blank name pair and a parsable score whose points
cell is missing or unparsable is still accepted, with points value 0; the
points parse failure neither drops the row nor aborts the run. -/
theorem claim_C5_points_default_zero (row : RawRow) (m : PlayerData)
    (scv : CellVal) (q : ℚ)
    (hname : ¬(isBlankCell row.ln = true ∧ isBlankCell row.fn = true))
    (hsc : row.sc = some scv) (hq : scv.asNum = some q)
    (hpt : row.pt = none ∨ ∃ v, row.pt = some v ∧ v.asNum = none) :
    parseRow row = some ((strippedName row.ln, strippedName row.fn), q, 0) ∧
    processRow m row = addEntry m (strippedName row.ln, strippedName row.fn) q 0 := by
  have hb : (isBlankCell row.ln && isBlankCell row.fn) = false := by
    cases h1 : isBlankCell row.ln <;> cases h2 : isBlankCell row.fn <;> simp_all
  have hinner : (strippedName row.ln == "" && strippedName row.fn == "") = false := by
    rw [← isBlankCell_eq, ← isBlankCell_eq]
    exact hb
  have hp : parseRow row
      = some ((strippedName row.ln, strippedName row.fn), q, 0) := by
    unfold parseRow
    rcases hpt with hpt | ⟨v, hv, hn⟩
    · simp [hb, hsc, hq, hpt, hinner]
    · simp [hb, hsc, hq, hv, hn, hinner]
  exact ⟨hp, by simp [processRow, hp]⟩

/-- Witness for C5: a row with names, score 12 and unparsable points cell. -/
theorem claim_C5_points_default_zero_witness :
    (¬(isBlankCell (RawRow.mk (some ⟨"Doe", none⟩) (some ⟨"Jo", none⟩)
          (some ⟨"12", some 12⟩) (some ⟨"x", none⟩)).ln = true ∧
        isBlankCell (RawRow.mk (some ⟨"Doe", none⟩) (some ⟨"Jo", none⟩)
          (some ⟨"12", some 12⟩) (some ⟨"x", none⟩)).fn = true)) ∧
    (RawRow.mk (some ⟨"Doe", none⟩) (some ⟨"Jo", none⟩)
        (some ⟨"12", some 12⟩) (some ⟨"x", none⟩)).sc = some ⟨"12", some 12⟩ ∧
    (⟨"12", some 12⟩ : CellVal).asNum = some 12 ∧
    ((RawRow.mk (some ⟨"Doe", none⟩) (some ⟨"Jo", none⟩)
        (some ⟨"12", some 12⟩) (some ⟨"x", none⟩)).pt = none ∨
      ∃ v, (RawRow.mk (some ⟨"Doe", none⟩) (some ⟨"Jo", none⟩)
        (some ⟨"12", some 12⟩) (some ⟨"x", none⟩)).pt = some v ∧ v.asNum = none) ∧
    parseRow (RawRow.mk (some ⟨"Doe", none⟩) (some ⟨"Jo", none⟩)
        (some ⟨"12", some 12⟩) (some ⟨"x", none⟩))
      = some ((strippedName (some ⟨"Doe", none⟩), strippedName (some ⟨"Jo", none⟩)), 12, 0) ∧
    processRow [] (RawRow.mk (some ⟨"Doe", none⟩) (some ⟨"Jo", none⟩)
        (some ⟨"12", some 12⟩) (some ⟨"x", none⟩))
      = addEntry [] (strippedName (some ⟨"Doe", none⟩), strippedName (some ⟨"Jo", none⟩)) 12 0 :=
  ⟨by simp +decide [isBlankCell, String.trim, Substring.trim, String.toSubstring,
      Substring.toString, Substring.takeWhileAux, Substring.takeRightWhileAux],
    rfl, rfl, Or.inr ⟨⟨"x", none⟩, rfl, rfl⟩,
    claim_C5_points_default_zero _ [] ⟨"12", some 12⟩ 12
      (by simp +decide [isBlankCell, String.trim, Substring.trim, String.toSubstring,
        Substring.toString, Substring.takeWhileAux, Substring.takeRightWhileAux])
      rfl rfl (Or.inr ⟨⟨"x", none⟩, rfl, rfl⟩)⟩

theorem addEntry_inv (m : PlayerData) (key : PlayerKey) (s p : ℚ)
    (h : ∀ e ∈ m, e.2.1.length = e.2.2.length ∧ e.2.1 ≠ []) :
    ∀ e ∈ addEntry m key s p, e.2.1.length = e.2.2.length ∧ e.2.1 ≠ [] := by
  induction m with
  | nil =>
    intro e he
    simp [addEntry] at he
    subst he
    simp
  | cons hd rest ih =>
    obtain ⟨k0, v0⟩ := hd
    intro e he
    by_cases hk : k0 = key
    · simp only [addEntry, if_pos hk] at he
      rcases List.mem_cons.mp he with h1 | h1
      · subst h1
        have := h (k0, v0) (List.mem_cons_self _ _)
        simp at this ⊢
        omega
      · exact h e (List.mem_cons_of_mem _ h1)
    · simp only [addEntry, if_neg hk] at he
      rcases List.mem_cons.mp he with h1 | h1
      · subst h1
        exact h (k0, v0) (List.mem_cons_self _ _)
      · exact ih (fun e2 he2 => h e2 (List.mem_cons_of_mem _ he2)) e h1

theorem foldl_processRow_inv (rows : List RawRow) (m : PlayerData)
    (h : ∀ e ∈ m, e.2.1.length = e.2.2.length ∧ e.2.1 ≠ []) :
    ∀ e ∈ rows.foldl processRow m, e.2.1.length = e.2.2.length ∧ e.2.1 ≠ [] := by
  induction rows generalizing m with
  | nil => exact h
  | cons row rest ih =>
    intro e he
    rw [List.foldl_cons] at he
    refine ih (processRow m row) ?_ e he
    intro e2 he2
    unfold processRow at he2
    cases hp : parseRow row with
    | none =>
      rw [hp] at he2
      exact h e2 he2
    | some t =>
      obtain ⟨k1, s1, p1⟩ := t
      rw [hp] at he2
      exact addEntry_inv m k1 s1 p1 h e2 he2

theorem sheets_foldl_inv (sheets : List (List RawRow)) (m : PlayerData)
    (h : ∀ e ∈ m, e.2.1.length = e.2.2.length ∧ e.2.1 ≠ []) :
    ∀ e ∈ sheets.foldl (fun m sheet => sheet.foldl processRow m) m,
      e.2.1.length = e.2.2.length ∧ e.2.1 ≠ [] := by
  induction sheets generalizing m with
  | nil => exact h
  | cons sheet rest ih =>
    intro e he
    rw [List.foldl_cons] at he
    exact ih (sheet.foldl processRow m) (foldl_processRow_inv sheet m h) e he

theorem parse_eq_foldl (sheets : List (List RawRow)) :
    parse_excel_all_sheets sheets
      = sheets.foldl (fun m sheet => sheet.foldl processRow m) [] := by
  unfold parse_excel_all_sheets
  apply List.filter_eq_self.mpr
  intro e he
  have h2 := (sheets_foldl_inv sheets [] (by simp) e he).2
  simpa using h2

/-- C9: in the mapping the aggregator returns, every player's scores list and
points list have the same length and are non-empty, so the i-th score and the
i-th points value always come from the same accepted input row. -/
theorem claim_C9_parallel_lists (sheets : List (List RawRow)) :
    ∀ e ∈ parse_excel_all_sheets sheets,
      e.2.1.length = e.2.2.length ∧ e.2.1 ≠ [] := by
  intro e he
  rw [parse_eq_foldl] at he
  exact sheets_foldl_inv sheets [] (by simp) e he

/-- Witness for C9: one sheet with one valid row yields one entry with
parallel singleton lists. -/
theorem claim_C9_parallel_lists_witness :
    ((("Doe".trim, "Jo".trim), ([(12 : ℚ)], [(0 : ℚ)]))
        ∈ parse_excel_all_sheets [[RawRow.mk (some ⟨"Doe", none⟩) (some ⟨"Jo", none⟩)
            (some ⟨"12", some 12⟩) none]]) ∧
    ([(12 : ℚ)], [(0 : ℚ)]).1.length = ([(12 : ℚ)], [(0 : ℚ)]).2.length ∧
    ([(12 : ℚ)], [(0 : ℚ)]).1 ≠ [] := by
  have hmem : (("Doe".trim, "Jo".trim), ([(12 : ℚ)], [(0 : ℚ)]))
      ∈ parse_excel_all_sheets [[RawRow.mk (some ⟨"Doe", none⟩) (some ⟨"Jo", none⟩)
          (some ⟨"12", some 12⟩) none]] := by
    simp +decide [parse_excel_all_sheets, processRow, parseRow, addEntry, isBlankCell,
      strippedName, String.trim, Substring.trim, String.toSubstring,
      Substring.toString, Substring.takeWhileAux, Substring.takeRightWhileAux]
  exact ⟨hmem, (claim_C9_parallel_lists _ _ hmem).1, (claim_C9_parallel_lists _ _ hmem).2⟩

theorem addEntry_cons_eq (k0 : PlayerKey) (v0 : List ℚ × List ℚ) (rest : PlayerData)
    (key : PlayerKey) (s p : ℚ) :
    addEntry ((k0, v0) :: rest) key s p =
      if k0 = key then (k0, (v0.1 ++ [s], v0.2 ++ [p])) :: rest
      else (k0, v0) :: addEntry rest key s p := rfl

theorem addEntry_keys_mem (m : PlayerData) (key k2 : PlayerKey) (s p : ℚ) :
    k2 ∈ (addEntry m key s p).map Prod.fst ↔ k2 ∈ m.map Prod.fst ∨ k2 = key := by
  induction m with
  | nil => simp [addEntry]
  | cons hd rest ih =>
    obtain ⟨k0, v0⟩ := hd
    by_cases hk : k0 = key
    · subst hk
      rw [addEntry_cons_eq, if_pos rfl]
      simp only [List.map_cons, List.mem_cons]
      tauto
    · rw [addEntry_cons_eq, if_neg hk]
      simp only [List.map_cons, List.mem_cons, ih]
      tauto

theorem addEntry_keys_nodup (m : PlayerData) (key : PlayerKey) (s p : ℚ)
    (h : (m.map Prod.fst).Nodup) : ((addEntry m key s p).map Prod.fst).Nodup := by
  induction m with
  | nil => simp [addEntry]
  | cons hd rest ih =>
    obtain ⟨k0, v0⟩ := hd
    rw [List.map_cons, List.nodup_cons] at h
    by_cases hk : k0 = key
    · rw [addEntry, if_pos hk, List.map_cons, List.nodup_cons]
      exact ⟨h.1, h.2⟩
    · rw [addEntry, if_neg hk, List.map_cons, List.nodup_cons]
      refine ⟨?_, ih h.2⟩
      rw [addEntry_keys_mem]
      rintro (hcon | hcon)
      · exact h.1 hcon
      · exact hk hcon

theorem processRow_keys_mem (m : PlayerData) (row : RawRow) (k2 : PlayerKey) :
    k2 ∈ (processRow m row).map Prod.fst ↔
      k2 ∈ m.map Prod.fst ∨ ∃ s p : ℚ, parseRow row = some (k2, s, p) := by
  unfold processRow
  cases hp : parseRow row with
  | none => simp [hp]
  | some t =>
    obtain ⟨k1, s1, p1⟩ := t
    rw [addEntry_keys_mem]
    simp only [hp, Option.some.injEq, Prod.mk.injEq]
    constructor
    · rintro (hm | hk)
      · exact Or.inl hm
      · exact Or.inr ⟨s1, p1, hk.symm, rfl, rfl⟩
    · rintro (hm | ⟨s, pp, hk, hs, hpp⟩)
      · exact Or.inl hm
      · exact Or.inr hk.symm

theorem processRow_keys_nodup (m : PlayerData) (row : RawRow)
    (h : (m.map Prod.fst).Nodup) : ((processRow m row).map Prod.fst).Nodup := by
  unfold processRow
  cases hp : parseRow row with
  | none => exact h
  | some t =>
    obtain ⟨k1, s1, p1⟩ := t
    exact addEntry_keys_nodup m k1 s1 p1 h

theorem foldl_processRow_keys (rows : List RawRow) (m : PlayerData) (k2 : PlayerKey) :
    k2 ∈ (rows.foldl processRow m).map Prod.fst ↔
      k2 ∈ m.map Prod.fst ∨ ∃ row ∈ rows, ∃ s p : ℚ, parseRow row = some (k2, s, p) := by
  induction rows generalizing m with
  | nil => simp
  | cons row rest ih =>
    rw [List.foldl_cons, ih, processRow_keys_mem]
    constructor
    · rintro ((hm | hrow) | ⟨r, hr, hparse⟩)
      · exact Or.inl hm
      · exact Or.inr ⟨row, List.mem_cons_self _ _, hrow⟩
      · exact Or.inr ⟨r, List.mem_cons_of_mem _ hr, hparse⟩
    · rintro (hm | ⟨r, hr, hparse⟩)
      · exact Or.inl (Or.inl hm)
      · rcases List.mem_cons.mp hr with hre | hre
        · subst hre
          exact Or.inl (Or.inr hparse)
        · exact Or.inr ⟨r, hre, hparse⟩

theorem foldl_processRow_nodup (rows : List RawRow) (m : PlayerData)
    (h : (m.map Prod.fst).Nodup) : ((rows.foldl processRow m).map Prod.fst).Nodup := by
  induction rows generalizing m with
  | nil => exact h
  | cons row rest ih =>
    rw [List.foldl_cons]
    exact ih (processRow m row) (processRow_keys_nodup m row h)

theorem sheets_foldl_keys (sheets : List (List RawRow)) (m : PlayerData) (k2 : PlayerKey) :
    k2 ∈ ((sheets.foldl (fun m sheet => sheet.foldl processRow m) m).map Prod.fst) ↔
      k2 ∈ m.map Prod.fst ∨
        ∃ sheet ∈ sheets, ∃ row ∈ sheet, ∃ s p : ℚ, parseRow row = some (k2, s, p) := by
  induction sheets generalizing m with
  | nil => simp
  | cons sheet rest ih =>
    rw [List.foldl_cons, ih, foldl_processRow_keys]
    constructor
    · rintro ((hm | hrow) | ⟨sh, hsh, hrest⟩)
      · exact Or.inl hm
      · exact Or.inr ⟨sheet, List.mem_cons_self _ _, hrow⟩
      · exact Or.inr ⟨sh, List.mem_cons_of_mem _ hsh, hrest⟩
    · rintro (hm | ⟨sh, hsh, hrest⟩)
      · exact Or.inl (Or.inl hm)
      · rcases List.mem_cons.mp hsh with hse | hse
        · subst hse
          exact Or.inl (Or.inr hrest)
        · exact Or.inr ⟨sh, hse, hrest⟩

theorem sheets_foldl_nodup (sheets : List (List RawRow)) (m : PlayerData)
    (h : (m.map Prod.fst).Nodup) :
    ((sheets.foldl (fun m sheet => sheet.foldl processRow m) m).map Prod.fst).Nodup := by
  induction sheets generalizing m with
  | nil => exact h
  | cons sheet rest ih =>
    rw [List.foldl_cons]
    exact ih (sheet.foldl processRow m) (foldl_processRow_nodup sheet m h)

/-- C7: one ranked row per aggregated player: the ranker output has exactly
as many rows as the aggregated mapping has entries, the mapping keys are
pairwise distinct identities, and an identity is in the mapping iff some raw
row of some sheet parses to a valid contribution of that identity. -/
theorem claim_C7_row_count (sheets : List (List RawRow)) (k : Nat) (_hk : 0 < k) :
    ((compute_top_k_and_totals (parse_excel_all_sheets sheets) k).2).length
        = (parse_excel_all_sheets sheets).length ∧
    ((parse_excel_all_sheets sheets).map Prod.fst).Nodup ∧
    ∀ key : PlayerKey,
      key ∈ (parse_excel_all_sheets sheets).map Prod.fst ↔
        ∃ sheet ∈ sheets, ∃ row ∈ sheet, ∃ s p : ℚ, parseRow row = some (key, s, p) := by
  refine ⟨compute_rows_length _ _, ?_, ?_⟩
  · rw [parse_eq_foldl]
    exact sheets_foldl_nodup sheets [] (by simp)
  · intro key
    rw [parse_eq_foldl, sheets_foldl_keys]
    simp

/-- Witness for C7 at one sheet with a single valid row and k = 15. -/
theorem claim_C7_row_count_witness :
    (0 : Nat) < 15 ∧
    (((compute_top_k_and_totals
          (parse_excel_all_sheets [[RawRow.mk (some ⟨"Doe", none⟩) (some ⟨"Jo", none⟩)
            (some ⟨"12", some 12⟩) none]]) 15).2).length
        = (parse_excel_all_sheets [[RawRow.mk (some ⟨"Doe", none⟩) (some ⟨"Jo", none⟩)
            (some ⟨"12", some 12⟩) none]]).length ∧
      ((parse_excel_all_sheets [[RawRow.mk (some ⟨"Doe", none⟩) (some ⟨"Jo", none⟩)
            (some ⟨"12", some 12⟩) none]]).map Prod.fst).Nodup ∧
      ∀ key : PlayerKey,
        key ∈ (parse_excel_all_sheets [[RawRow.mk (some ⟨"Doe", none⟩) (some ⟨"Jo", none⟩)
            (some ⟨"12", some 12⟩) none]]).map Prod.fst ↔
          ∃ sheet ∈ [[RawRow.mk (some ⟨"Doe", none⟩) (some ⟨"Jo", none⟩)
            (some ⟨"12", some 12⟩) none]], ∃ row ∈ sheet,
            ∃ s p : ℚ, parseRow row = some (key, s, p)) :=
  ⟨by decide, claim_C7_row_count _ 15 (by decide)⟩

/-- C8: the ranking computation is deterministic — equal input mappings and
equal K give identical headers and identical row sequences, tie order
included. -/
theorem claim_C8_deterministic (pd1 pd2 : PlayerData) (k1 k2 : Nat)
    (hpd : pd1 = pd2) (hk : k1 = k2) :
    compute_top_k_and_totals pd1 k1 = compute_top_k_and_totals pd2 k2 := by
  rw [hpd, hk]

/-- Witness for C8 at a concrete mapping and K = 15. -/
theorem claim_C8_deterministic_witness :
    ([(("A", "B"), ([(1 : ℚ)], [(2 : ℚ)]))] : PlayerData)
        = [(("A", "B"), ([(1 : ℚ)], [(2 : ℚ)]))] ∧
    (15 : Nat) = 15 ∧
    compute_top_k_and_totals [(("A", "B"), ([(1 : ℚ)], [(2 : ℚ)]))] 15
      = compute_top_k_and_totals [(("A", "B"), ([(1 : ℚ)], [(2 : ℚ)]))] 15 :=
  ⟨rfl, rfl, claim_C8_deterministic _ _ _ _ rfl rfl⟩

end TarotRankings
